import Mathlib

/-!
Shallow embedding of the poster-generator library (`src/lib.rs`) and proofs
about its specification claims.

Conventions of the embedding:
* Rust `f32` quantities (coordinates, widths, scales) are modelled as `ℚ`;
  all arithmetic the claims exercise (division, `max`, `min`, halving) is
  exact at the values considered, so `ℚ` represents the computation faithfully.
* Rust `&str` values are modelled as Lean `String`s viewed as their list of
  unicode scalar values (`String.data`), matching `str::chars()`.
* Fallible Rust code (`Result`, `Option`, panics) is modelled with
  `Except` / `Option`; a `panic!`/`unwrap`-on-`None` is modelled as `none`.
* External capabilities (skia surface creation, image decoding, PNG encoding,
  text measurement, `TextBlob::new`) are a `Backend` record of oracles; the
  embedded code is parametric in it exactly where the Rust code calls skia.
* `usize` arithmetic that can wrap (`max as usize - 1`) is modelled with
  explicit `% 2 ^ 64` wrapping, i.e. release-mode Rust semantics.
-/

/-! Section: Data model (`lib.rs` lines 26–132) -/

/-- Rust's `enum ObjectFit { Cover, Contain, Stretch }`. -/
inductive ObjectFit
  | cover
  | contain
  | stretch
  deriving DecidableEq, Repr

/-- Rust's `enum TextAlignType { Left, Center, Right }`. -/
inductive TextAlignType
  | left
  | center
  | right
  deriving DecidableEq, Repr

/-- Rust's `enum TextDirectionType { Ltr, Rtl }`. -/
inductive TextDirectionType
  | ltr
  | rtl
  deriving DecidableEq, Repr

/-- Rust's `enum Radius { Single(f32), Multiple([f32; 4]) }`. -/
inductive Radius
  | single (r : ℚ)
  | multiple (tl tr br bl : ℚ)
  deriving DecidableEq, Repr

/-- Rust's `struct BackgroundElement { image, color, radius }`. -/
structure BackgroundElement where
  image : Option String
  color : String
  radius : Option Radius
  deriving DecidableEq, Repr

/-- Rust's `struct ImageElement { src, x, y, width, height, radius, z_index, object_fit }`. -/
structure ImageElement where
  src : String
  x : ℚ
  y : ℚ
  width : ℚ
  height : ℚ
  radius : Option Radius
  z_index : Option Int
  object_fit : ObjectFit
  deriving DecidableEq, Repr

/-- Rust's `struct TextElement` (`lib.rs` lines 72–98).  The Rust field `prefix` is
renamed `prefixText` (`prefix` is not usable as a plain Lean identifier). -/
structure TextElement where
  text : String
  x : ℚ
  y : ℚ
  font_size : ℚ
  color : String
  align : TextAlignType
  font_family : Option String
  max_width : Option ℚ
  line_height : ℚ
  max_lines : Option Nat
  z_index : Option Int
  bold : Bool
  prefixText : Option String
  background_color : Option String
  padding : ℚ
  border_radius : Option Radius
  width : Option ℚ
  height : Option ℚ
  direction : TextDirectionType
  deriving DecidableEq, Repr

/-- Rust's `enum Element { Background, Image, Text }`. -/
inductive Element
  | background (e : BackgroundElement)
  | image (e : ImageElement)
  | text (e : TextElement)
  deriving DecidableEq, Repr

/-- Discriminator for the `Background` variant. -/
def Element.isBackground : Element → Bool
  | .background _ => true
  | _ => false

/-! Section: Script classifier (`is_rtl_text`, `lib.rs` lines 135–150) -/

/-- The five code-point range tests from the body of `is_rtl_text`. -/
def rtlCode (code : Nat) : Bool :=
  (0x0600 ≤ code && code ≤ 0x06FF) ||
  (0x0750 ≤ code && code ≤ 0x077F) ||
  (0x08A0 ≤ code && code ≤ 0x08FF) ||
  (0xFB50 ≤ code && code ≤ 0xFDFF) ||
  (0xFE70 ≤ code && code ≤ 0xFEFF)

/-- The classifier `is_rtl_text`: `text.chars().any(|c| ...)` over the five ranges. -/
def is_rtl_text (text : String) : Bool :=
  text.data.any fun c => rtlCode c.toNat

/-! Section: Color parsing (`parse_color`, `lib.rs` lines 607–633) -/

/-- A skia `Color`, stored as the four `u8` channels of
`Color::from_argb(a, r, g, b)`. -/
structure SkColor where
  a : Nat
  r : Nat
  g : Nat
  b : Nat
  deriving DecidableEq, Repr

/-- Constructor `Color::from_rgb(r, g, b)`: full opacity. -/
def SkColor.fromRgb (r g b : Nat) : SkColor := ⟨255, r, g, b⟩

/-- Constant `Color::BLACK`. -/
def SkColor.black : SkColor := ⟨255, 0, 0, 0⟩

/-- UTF-8 encoding of one unicode scalar value: the bytes a Rust `&str`
stores for it.  Rust string indexing, slicing and `str::len` operate on
these bytes, not on characters. -/
def utf8Bytes (c : Char) : List Nat :=
  let n := c.toNat
  if n < 0x80 then [n]
  else if n < 0x800 then [0xC0 + n / 0x40, 0x80 + n % 0x40]
  else if n < 0x10000 then
    [0xE0 + n / 0x1000, 0x80 + (n / 0x40) % 0x40, 0x80 + n % 0x40]
  else
    [0xF0 + n / 0x40000, 0x80 + (n / 0x1000) % 0x40, 0x80 + (n / 0x40) % 0x40,
     0x80 + n % 0x40]

/-- The UTF-8 byte sequence of a string. -/
def strBytes (s : String) : List Nat := (s.data.map utf8Bytes).flatten

/-- Whether a byte is a UTF-8 continuation byte (0x80–0xBF).  A Rust byte
slice whose end point falls on one panics (byte index is not a char
boundary). -/
def isContinuationByte (b : Nat) : Bool := 0x80 ≤ b && b < 0xC0

/-- Hex-digit value of an ASCII byte. -/
def hexDigitByte (b : Nat) : Option Nat :=
  if 48 ≤ b ∧ b ≤ 57 then some (b - 48)
  else if 97 ≤ b ∧ b ≤ 102 then some (b - 97 + 10)
  else if 65 ≤ b ∧ b ≤ 70 then some (b - 65 + 10)
  else none

/-- Parsing of `u8::from_str_radix(slice, 16)` on a two-byte slice: an
optional leading ASCII sign is accepted — `+d` parses as `d` and `-0` as
`0` (a negative non-zero value overflows `u8`); otherwise both bytes must
be hex digits. -/
def fromStrRadix16Pair (b₀ b₁ : Nat) : Option Nat :=
  if b₀ = 43 then hexDigitByte b₁
  else if b₀ = 45 then
    match hexDigitByte b₁ with
    | some 0 => some 0
    | _ => none
  else
    match hexDigitByte b₀, hexDigitByte b₁ with
    | some h, some l => some (16 * h + l)
    | _, _ => none

/-- The function `parse_color`, over the string's UTF-8 bytes, slicing as
the Rust code does (`&color_str[1..]`, `hex.len()`, `&hex[0..2]` & co.):
`#RRGGBB` yields `Color::from_rgb(r, g, b)`, `#RRGGBBAA` yields
`Color::from_argb(a, r, g, b)` with the alpha pair read *last*, and any
other input yields `Color::BLACK` — except that when the hex part has byte
length 6 or 8 and one of the interior slice offsets (2 and 4, plus 6 for
length 8) falls inside a multi-byte character, the byte slicing *panics*,
modelled as `none`. -/
def parse_color (color_str : String) : Option SkColor :=
  match strBytes color_str with
  | 35 :: hex =>
    match hex with
    | [r₀, r₁, g₀, g₁, b₀, b₁] =>
      if isContinuationByte g₀ || isContinuationByte b₀ then none
      else
        match fromStrRadix16Pair r₀ r₁, fromStrRadix16Pair g₀ g₁,
            fromStrRadix16Pair b₀ b₁ with
        | some r, some g, some b => some (.fromRgb r g b)
        | _, _, _ => some .black
    | [r₀, r₁, g₀, g₁, b₀, b₁, a₀, a₁] =>
      if isContinuationByte g₀ || isContinuationByte b₀ || isContinuationByte a₀ then none
      else
        match fromStrRadix16Pair r₀ r₁, fromStrRadix16Pair g₀ g₁,
            fromStrRadix16Pair b₀ b₁, fromStrRadix16Pair a₀ a₁ with
        | some r, some g, some b, some a => some ⟨a, r, g, b⟩
        | _, _, _, _ => some .black
    | _ => some .black
  | _ => some .black

/-! Section: Depth ordering (`PosterElement::z_index`, `lib.rs` lines 286–289,
346–348, 391–393, and the sort in `generate`, lines 568–570) -/

/-- The `z_index` method of each element: `BackgroundElement` returns the
constant `-1000` ("Background always at the bottom"); `ImageElement` and
`TextElement` return `self.z_index.unwrap_or(0)`. -/
def Element.z_index : Element → Int
  | .background _ => -1000
  | .image e => e.z_index.getD 0
  | .text e => e.z_index.getD 0

/-- One insertion step of a stable sort by `Element.z_index`: `e` is placed
before the first element whose key is `≥` its own, so that among equal keys
earlier-inserted elements stay first.  Together with `sorted_elements` this
is the (unique) stable sort that Rust's `sort_by_key` performs. -/
def insertByKey (e : Element) : List Element → List Element
  | [] => [e]
  | f :: fs => if f.z_index < e.z_index then f :: insertByKey e fs else e :: f :: fs

/-- The list `sorted_elements`: the element list stable-sorted by ascending
`z_index`, as produced by `sorted_elements.sort_by_key(|e| e.z_index())`. -/
def sorted_elements : List Element → List Element
  | [] => []
  | e :: es => insertByKey e (sorted_elements es)

/-! Section: Tokenisation (`str::split_whitespace`) -/

/-- Helper for `splitWhitespace`: `acc` holds the current token reversed. -/
def splitWsAux : List Char → List Char → List String
  | [], acc => if acc.isEmpty then [] else [String.mk acc.reverse]
  | c :: cs, acc =>
    if c.isWhitespace then
      if acc.isEmpty then splitWsAux cs []
      else String.mk acc.reverse :: splitWsAux cs []
    else splitWsAux cs (c :: acc)

/-- Tokenisation `text.split_whitespace().collect::<Vec<&str>>()`: maximal runs of
non-whitespace characters, in order; no empty tokens. -/
def splitWhitespace (s : String) : List String :=
  splitWsAux s.data []

/-- The space-joining the wrap loop performs: `format!("{} {}", cur, word)`
folded over a group of words.  `joinSp [w₁, …, wₙ] = w₁ ++ " " ++ … ++ " " ++ wₙ`. -/
def joinSp : List String → String
  | [] => ""
  | w :: ws => ws.foldl (fun acc v => acc ++ " " ++ v) w

/-! Section: Ellipsis truncation (`truncate_with_ellipsis`, `lib.rs` lines 857–881,
and `truncate_with_ellipsis_rtl`, lines 936–960).  The skia text-measure
function (`measure_text` / `measure_text_with_font`, both of which only
forward to `TextBlob` bounds) is a parameter `measure`. -/

/-- The character-accumulation loop of `truncate_with_ellipsis`:
`test = result + ch; if measure(test) ≤ avail { result = test } else break`. -/
def truncAccum (measure : String → ℚ) (avail : ℚ) : List Char → String → String
  | [], result => result
  | ch :: cs, result =>
    let test := result.push ch
    if measure test ≤ avail then truncAccum measure avail cs test else result

/-- The function `truncate_with_ellipsis(text, max_width, font)`. -/
def truncate_with_ellipsis (measure : String → ℚ) (text : String) (max_width : ℚ) : String :=
  let ellipsis := "..."
  let ellipsisWidth := measure ellipsis
  if measure text ≤ max_width then text
  else
    let availableWidth := max_width - ellipsisWidth
    truncAccum measure availableWidth text.data "" ++ ellipsis

/-- The function `truncate_with_ellipsis_rtl`: identical body except that the ellipsis is
chosen by an `if is_rtl_text(text)` whose two branches are both `"..."`. -/
def truncate_with_ellipsis_rtl (measure : String → ℚ) (text : String) (max_width : ℚ) : String :=
  let ellipsis := if is_rtl_text text then "..." else "..."
  let ellipsisWidth := measure ellipsis
  if measure text ≤ max_width then text
  else
    let availableWidth := max_width - ellipsisWidth
    truncAccum measure availableWidth text.data "" ++ ellipsis

/-! Section: Word wrapping (`break_text`, `lib.rs` lines 812–855, and
`break_text_rtl`, lines 884–934) -/

/-- The expression `max as usize - 1` under release-mode (wrapping) `usize` semantics:
for `max = 0` the subtraction underflows and wraps to `2 ^ 64 - 1`. -/
def usizeSub1 (max : Nat) : Nat := (max + (2 ^ 64 - 1)) % 2 ^ 64

/-- The `for word in words` loop shared by `break_text` and `break_text_rtl`:
state is the committed `lines` and the `current_line`; the loop `break`s once
`lines.len() >= max as usize - 1` after a commit. -/
def breakLoop (measure : String → ℚ) (max_width : ℚ) (max_lines : Option Nat) :
    List String → List String → String → List String × String
  | [], lines, current_line => (lines, current_line)
  | word :: words, lines, current_line =>
    let test_line := if current_line.isEmpty then word else current_line ++ " " ++ word
    if measure test_line ≤ max_width ∨ current_line.isEmpty = true then
      breakLoop measure max_width max_lines words lines test_line
    else
      let lines' := lines ++ [current_line]
      match max_lines with
      | some max =>
        if usizeSub1 max ≤ lines'.length then (lines', word)
        else breakLoop measure max_width max_lines words lines' word
      | none => breakLoop measure max_width max_lines words lines' word

/-- The epilogue shared by `break_text` and `break_text_rtl`: push or
ellipsis-truncate the remaining `current_line`.  The
`lines.last_mut().unwrap()` on an empty line list — a panic — is `none`.
`truncate` abstracts over the two ellipsis functions. -/
def breakFinish (truncate : String → ℚ → String) (max_width : ℚ) (max_lines : Option Nat)
    (lines : List String) (current_line : String) : Option (List String) :=
  if current_line.isEmpty then some lines
  else
    match max_lines with
    | some max =>
      if max ≤ lines.length then
        match lines.getLast? with
        | none => none
        | some last => some (lines.dropLast ++ [truncate last max_width])
      else some (lines ++ [current_line])
    | none => some (lines ++ [current_line])

/-- The function `break_text(text, max_width, font, max_lines)`; `none` models a panic. -/
def break_text (measure : String → ℚ) (text : String) (max_width : ℚ)
    (max_lines : Option Nat) : Option (List String) :=
  let words := splitWhitespace text
  let (lines, current_line) := breakLoop measure max_width max_lines words [] ""
  breakFinish (truncate_with_ellipsis measure) max_width max_lines lines current_line

/-- The function `break_text_rtl`: same loop; the word list is chosen by an
`if is_rtl_text(text)` whose branches are both `split_whitespace`, and the
final truncation uses `truncate_with_ellipsis_rtl`. -/
def break_text_rtl (measure : String → ℚ) (text : String) (max_width : ℚ)
    (max_lines : Option Nat) : Option (List String) :=
  let words := if is_rtl_text text then splitWhitespace text else splitWhitespace text
  let (lines, current_line) := breakLoop measure max_width max_lines words [] ""
  breakFinish (truncate_with_ellipsis_rtl measure) max_width max_lines lines current_line

/-! Section: Backend capabilities.  The skia calls the embedded code makes are
abstracted as oracles; the code is parametric in them exactly where
`lib.rs` calls into `skia_safe`. -/

/-- A decoded image, carrying only its pixel dimensions
(`img.width()`, `img.height()`). -/
structure SrcImage where
  width : Nat
  height : Nat
  deriving DecidableEq, Repr

/-- External capabilities used by the embedded code. -/
structure Backend where
  /-- Whether `Surface::new_raster_n32_premul((w, h))` succeeds. -/
  surfaceOk : Int → Int → Bool
  /-- Loading `load_image(path)`: `none` covers every failure mode of the Rust
  function (unreadable file, undecodable bytes, malformed base64). -/
  loadImage : String → Option SrcImage
  /-- Encoding `surface.image_snapshot().encode_to_data(PNG)`: the encoded bytes,
  or `none` when encoding fails. -/
  encodePNG : Option (List Nat)
  /-- Measurement `measure_text` / `measure_text_with_font`: width of a text run. -/
  measure : String → ℚ
  /-- Whether `TextBlob::new(text, font).is_some()`. -/
  blobOk : String → Bool

/-! Section: Effective writing direction (`TextElement::render`, `lib.rs`
lines 399–415) -/

/-- The full text content: `prefix` (when present) concatenated before the
body (`lib.rs` lines 400–403). -/
def fullTextOf (e : TextElement) : String :=
  match e.prefixText with
  | some p => p ++ e.text
  | none => e.text

/-- The direction computation of `TextElement::render`: explicit `Rtl` is
kept; explicit `Ltr` is overridden to `Rtl` when `is_rtl_text` classifies
the full text as right-to-left. -/
def effectiveDirection (e : TextElement) : TextDirectionType :=
  match e.direction with
  | .rtl => .rtl
  | .ltr => if is_rtl_text (fullTextOf e) then .rtl else .ltr

/-! Section: Line drawing (`draw_text_line_improved`, `lib.rs` lines 963–1048) -/

/-- What `draw_text_line_improved` hands to the backend: either a
paragraph painted at an origin (the RTL shaping path), a text blob drawn
at an origin (the LTR path), or nothing (`TextBlob::new` returned `None`). -/
inductive DrawCall
  | paragraphAt (x y : ℚ)
  | blobAt (x y : ℚ)
  | nothing
  deriving DecidableEq, Repr

/-- The width `draw_text_line_improved` lays the RTL paragraph out at:
`paragraph.layout(1000.0)`, after which `paragraph.max_width()` is `1000`. -/
def paragraphLayoutWidth : ℚ := 1000

/-- The function `draw_text_line_improved(canvas, text, x, y, font, paint, direction,
align)`, returning the draw call it issues.  The paragraph path is taken
exactly when `direction` is `Rtl` *and* `is_rtl_text(text)`; there the
origin is `x` (left/right) or `x - paragraph.max_width()/2` (center) with
`y - font.size()`.  The blob path computes `x`, `x - w`, or `x - w/2` from
the measured width `w`. -/
def draw_text_line_improved (be : Backend) (text : String) (x y : ℚ)
    (fontSize : ℚ) (direction : TextDirectionType) (align : TextAlignType) : DrawCall :=
  if direction = .rtl ∧ is_rtl_text text then
    let draw_y := y - fontSize
    let draw_x := if align = .center then x - paragraphLayoutWidth / 2 else x
    .paragraphAt draw_x draw_y
  else
    if be.blobOk text then
      let text_width := be.measure text
      let draw_x :=
        match align with
        | .left => x
        | .right => x - text_width
        | .center => x - text_width / 2
      .blobAt draw_x y
    else .nothing

/-! Section: Object-fit scaling (`scale_image`, `lib.rs` lines 663–746) -/

/-- The placement `scale_image` computes, one constructor per `ObjectFit`
arm.  `cover`: the canvas is scaled by the uniform `scale` and the image
drawn at `(x/scale, y/scale)`, where `(x, y)` centre the
`ceil`-rounded scaled extent.  `contain`: the image is drawn into the
destination rectangle `(x, y, x + scaledW, y + scaledH)` with
truncation-rounded extent.  `stretch`: the full source rectangle is drawn
onto the full `(0, 0, destW, destH)` target rectangle. -/
inductive FitPlacement
  | cover (scale x y : ℚ)
  | contain (x y : ℚ) (scaledW scaledH : Int)
  | stretch (destW destH : ℚ)
  deriving DecidableEq, Repr

/-- The pure geometry of `scale_image` on source dimensions `(sw, sh)` and
target dimensions `(width, height)`.  `as i32` casts of the (positive)
scaled extents are `⌈·⌉` in the cover arm (the code applies `.ceil()`)
and `⌊·⌋` in the contain arm (bare truncation). -/
def fitPlacement (sw sh width height : ℚ) : ObjectFit → FitPlacement
  | .cover =>
    let scale_x := width / sw
    let scale_y := height / sh
    let scale := max scale_x scale_y
    let scaled_width : Int := ⌈sw * scale⌉
    let scaled_height : Int := ⌈sh * scale⌉
    .cover scale ((width - scaled_width) / 2) ((height - scaled_height) / 2)
  | .contain =>
    let scale_x := width / sw
    let scale_y := height / sh
    let scale := min scale_x scale_y
    let scaled_width : Int := ⌊sw * scale⌋
    let scaled_height : Int := ⌊sh * scale⌋
    .contain ((width - scaled_width) / 2) ((height - scaled_height) / 2)
      scaled_width scaled_height
  | .stretch => .stretch width height

/-- Rust's `PosterError` (`lib.rs` lines 14–24). -/
inductive PosterError
  | imageLoadError (msg : String)
  | renderError (msg : String)
  | outputError (msg : String)
  deriving DecidableEq, Repr

/-- The function `scale_image(img, width, height, object_fit)`: every arm first creates a
`(width as i32, height as i32)` raster surface and propagates its failure as
a `RenderError`; the geometry is `fitPlacement`. -/
def scale_image (be : Backend) (img : SrcImage) (width height : ℚ)
    (object_fit : ObjectFit) : Except PosterError FitPlacement :=
  if be.surfaceOk ⌊width⌋ ⌊height⌋ then
    .ok (fitPlacement (img.width : ℚ) (img.height : ℚ) width height object_fit)
  else
    .error (.renderError "Failed to create surface for scaled image")

/-! Section: Element rendering (`PosterElement::render` impls, `lib.rs`
lines 291–341, 350–386, 395–424).  Each render is modelled as
`Option (Except PosterError Unit)`: `none` is a panic, `some` the
function's `Result` value. -/

/-- Rendering `BackgroundElement::render`: `parse_color(&self.color)` runs
first and can panic on the byte slicing of a malformed multi-byte colour
string (`none`); the colour fill itself never fails; an optional image is
loaded with `if let Ok(img) = load_image(..)` — a load failure is silently
skipped — but a successful load is followed by `scale_image(.., Cover)?`,
whose error propagates. -/
def BackgroundElement.render (be : Backend) (canvasW canvasH : Int)
    (e : BackgroundElement) : Option (Except PosterError Unit) :=
  match parse_color e.color with
  | none => none
  | some _ =>
    match e.image with
    | none => some (.ok ())
    | some img_path =>
      match be.loadImage img_path with
      | none => some (.ok ())
      | some img =>
        match scale_image be img (canvasW : ℚ) (canvasH : ℚ) .cover with
        | .ok _ => some (.ok ())
        | .error err => some (.error err)

/-- Rendering `ImageElement::render`: `load_image(&self.src)?` then
`scale_image(img, self.width, self.height, &self.object_fit)?`; both `?`s
propagate; no panicking operation is reached. -/
def ImageElement.render (be : Backend) (e : ImageElement) :
    Option (Except PosterError Unit) :=
  match be.loadImage e.src with
  | none => some (.error (.imageLoadError e.src))
  | some img =>
    match scale_image be img e.width e.height e.object_fit with
    | .ok _ => some (.ok ())
    | .error err => some (.error err)

/-- Rendering `TextElement::render`: `parse_color(&self.color)` runs first
and can panic; `render_with_text_layout` then parses the optional
highlight-box colour (`parse_color(bg_color_str)`, can panic) and, when
`max_width` is set, wraps with
`break_text_rtl(processed_text, max_width, font, self.max_lines)`, whose
`lines.last_mut().unwrap()` panic propagates (`process_rtl_text` returns
its input unchanged in both branches, so the wrapped text is the full
prefix-plus-body text).  Every non-panicking path — font resolution,
measurement, drawing — returns `Ok(())`. -/
def TextElement.render (be : Backend) (e : TextElement) :
    Option (Except PosterError Unit) :=
  match parse_color e.color with
  | none => none
  | some _ =>
    match (match e.background_color with
           | some bg_color_str => parse_color bg_color_str
           | none => some SkColor.black) with
    | none => none
    | some _ =>
      match e.max_width with
      | some mw =>
        match break_text_rtl be.measure (fullTextOf e) mw e.max_lines with
        | none => none
        | some _ => some (.ok ())
      | none => some (.ok ())

/-- Dispatch of `element.render(canvas)` over the three variants. -/
def Element.render (be : Backend) (canvasW canvasH : Int) :
    Element → Option (Except PosterError Unit)
  | .background e => e.render be canvasW canvasH
  | .image e => e.render be
  | .text e => e.render be

/-! Section: `PosterGenerator::generate` (`lib.rs` lines 554–585) -/

/-- Rust's `PosterGenerator`: canvas dimensions, background colour and the element
list (the boxed trait objects, one per added element). -/
structure PosterGenerator where
  width : Nat
  height : Nat
  background_color : String
  elements : List Element

/-- The `for element in sorted_elements { element.render(canvas)?; }` loop:
the first panic (`none`) or error aborts it. -/
def renderAll (be : Backend) (canvasW canvasH : Int) :
    List Element → Option (Except PosterError Unit)
  | [] => some (.ok ())
  | e :: es =>
    match e.render be canvasW canvasH with
    | none => none
    | some (.error err) => some (.error err)
    | some (.ok ()) => renderAll be canvasW canvasH es

/-- The driver `PosterGenerator::generate`: create the surface (or fail with
a `RenderError`), parse the background colour (a possible panic) and clear
to it, render the elements sorted by `z_index` (propagating the first panic
or error), then encode to PNG (or fail with an `OutputError`). -/
def PosterGenerator.generate (be : Backend) (g : PosterGenerator) :
    Option (Except PosterError (List Nat)) :=
  if be.surfaceOk (g.width : Int) (g.height : Int) then
    match parse_color g.background_color with
    | none => none
    | some _ =>
      match renderAll be (g.width : Int) (g.height : Int) (sorted_elements g.elements) with
      | none => none
      | some (.error err) => some (.error err)
      | some (.ok ()) =>
        match be.encodePNG with
        | some bytes => some (.ok bytes)
        | none => some (.error (.outputError "Failed to encode image as PNG"))
  else
    some (.error (.renderError "Failed to create surface"))

/-! Section: auxiliary definitions for the claims -/

/-- The invariant of the wrap loop (`break_text` / `break_text_rtl`) tying
its string state to a ghost grouping of the consumed tokens: the committed
`lines` are the space-joins of `groups`, the `current_line` is the
space-join of `curGroup`, emptiness of the two agree, and every committed
group (and the current one, while non-empty) either fits `max_width` or is
a single token. -/
def WrapInv (measure : String → ℚ) (max_width : ℚ) (groups : List (List String))
    (curGroup : List String) (lines : List String) (cur : String) : Prop :=
  lines = groups.map joinSp ∧
  cur = joinSp curGroup ∧
  ((cur = "" ∧ curGroup = []) ∨ (cur ≠ "" ∧ curGroup ≠ [])) ∧
  (∀ g ∈ groups, g ≠ [] ∧ (measure (joinSp g) ≤ max_width ∨ ∃ w, g = [w])) ∧
  (curGroup ≠ [] → measure cur ≤ max_width ∨ ∃ w, curGroup = [w]) ∧
  (∀ w ∈ curGroup, w ≠ "")

/-- A character-count text measure (width 1 per unicode scalar value),
written in the per-character additive form. -/
def lenMeasure (s : String) : ℚ := (s.data.map fun _ => (1 : ℚ)).sum

/-- A backend oracle whose image loads all fail, with constant text width
10; used to probe the failure paths. -/
def probeBackend : Backend where
  surfaceOk := fun _ _ => true
  loadImage := fun _ => none
  encodePNG := some []
  measure := fun _ => 10
  blobOk := fun _ => true

/-- A backend oracle where everything succeeds. -/
def happyBackend : Backend where
  surfaceOk := fun _ _ => true
  loadImage := fun _ => some ⟨4, 4⟩
  encodePNG := some [137, 80, 78, 71]
  measure := fun _ => 10
  blobOk := fun _ => true

/-- A plain white background element. -/
def bgSample : BackgroundElement := ⟨none, "#ffffff", none⟩

/-- An image element with the explicit depth `-2000`, below the Background
key `-1000`. -/
def imgBelow : ImageElement := ⟨"a.png", 0, 0, 10, 10, none, some (-2000), .cover⟩

/-- An image element with the explicit depth `5`. -/
def imgFive : ImageElement := ⟨"b.png", 0, 0, 10, 10, none, some 5, .cover⟩

/-- A text element with the given direction, optional prefix and body, all
other fields at their defaults. -/
def sampleText (dir : TextDirectionType) (pre : Option String) (body : String) : TextElement where
  text := body
  x := 0
  y := 0
  font_size := 12
  color := "#000000"
  align := .left
  font_family := none
  max_width := none
  line_height := 3 / 2
  max_lines := none
  z_index := none
  bold := false
  prefixText := pre
  background_color := none
  padding := 0
  border_radius := none
  width := none
  height := none
  direction := dir

/-! Section: C7 — script classifier -/

theorem is_rtl_text_iff (s : String) :
    is_rtl_text s = true ↔ ∃ c ∈ s.data,
      (0x0600 ≤ c.toNat ∧ c.toNat ≤ 0x06FF) ∨ (0x0750 ≤ c.toNat ∧ c.toNat ≤ 0x077F) ∨
      (0x08A0 ≤ c.toNat ∧ c.toNat ≤ 0x08FF) ∨ (0xFB50 ≤ c.toNat ∧ c.toNat ≤ 0xFDFF) ∨
      (0xFE70 ≤ c.toNat ∧ c.toNat ≤ 0xFEFF) := by
  simp only [is_rtl_text, rtlCode, List.any_eq_true, Bool.or_eq_true, Bool.and_eq_true,
    decide_eq_true_eq]
  constructor <;> rintro ⟨c, hc, h⟩ <;> exact ⟨c, hc, by tauto⟩

theorem isAlpha_lt_0x600 (c : Char) (h : c.isAlpha = true) : c.toNat < 0x600 := by
  simp only [Char.isAlpha, Char.isUpper, Char.isLower, Bool.or_eq_true, Bool.and_eq_true,
    decide_eq_true_eq] at h
  have hc : c.toNat = c.val.toNat := rfl
  rcases h with ⟨-, h⟩ | ⟨-, h⟩
  · have h2 : c.val.toNat ≤ 90 := h
    omega
  · have h2 : c.val.toNat ≤ 122 := h
    omega

/-- C7: `is_rtl_text` is a pure total function on strings returning `true`
iff some code point of the input lies in one of the five right-to-left block
ranges U+0600–U+06FF, U+0750–U+077F, U+08A0–U+08FF, U+FB50–U+FDFF,
U+FE70–U+FEFF; a string containing U+0627 classifies as right-to-left, a
string of only ASCII letters classifies as left-to-right, and the empty
string classifies as left-to-right. -/
theorem C7_script_classifier :
    (∀ s : String, is_rtl_text s = true ↔ ∃ c ∈ s.data,
        (0x0600 ≤ c.toNat ∧ c.toNat ≤ 0x06FF) ∨ (0x0750 ≤ c.toNat ∧ c.toNat ≤ 0x077F) ∨
        (0x08A0 ≤ c.toNat ∧ c.toNat ≤ 0x08FF) ∨ (0xFB50 ≤ c.toNat ∧ c.toNat ≤ 0xFDFF) ∨
        (0xFE70 ≤ c.toNat ∧ c.toNat ≤ 0xFEFF)) ∧
    (∀ s : String, (∃ c ∈ s.data, c.toNat = 0x0627) → is_rtl_text s = true) ∧
    (∀ s : String, (∀ c ∈ s.data, c.isAlpha = true) → is_rtl_text s = false) ∧
    is_rtl_text "ا" = true ∧
    is_rtl_text "" = false := by
  refine ⟨is_rtl_text_iff, ?_, ?_, by decide, by decide⟩
  · rintro s ⟨c, hc, hval⟩
    exact (is_rtl_text_iff s).mpr ⟨c, hc, Or.inl ⟨by omega, by omega⟩⟩
  · intro s h
    by_contra hne
    have htrue : is_rtl_text s = true := by
      cases hb : is_rtl_text s
      · exact absurd hb hne
      · rfl
    obtain ⟨c, hc, hr⟩ := (is_rtl_text_iff s).mp htrue
    have := isAlpha_lt_0x600 c (h c hc)
    rcases hr with ⟨h1, -⟩ | ⟨h1, -⟩ | ⟨h1, -⟩ | ⟨h1, -⟩ | ⟨h1, -⟩ <;> omega

theorem C7_script_classifier_witness : is_rtl_text "abc" = false :=
  C7_script_classifier.2.2.1 "abc" (by decide)

/-! Section: C9 — colour parsing -/

/-- C8: the effective direction of a text element: an explicit `Rtl` is kept
unconditionally; an explicit `Ltr` yields `Rtl` exactly when the full text
content — prefix concatenated with the body — classifies as right-to-left
script, and `Ltr` otherwise.  Classification can override an explicit
left-to-right setting but an explicit right-to-left is never downgraded. -/
theorem C8_direction_override (e : TextElement) :
    (e.direction = .rtl → effectiveDirection e = .rtl) ∧
    (e.direction = .ltr →
      ((effectiveDirection e = .rtl ↔ is_rtl_text (fullTextOf e) = true) ∧
       (effectiveDirection e = .ltr ↔ is_rtl_text (fullTextOf e) = false))) ∧
    (∀ p, e.prefixText = some p → fullTextOf e = p ++ e.text) ∧
    (e.prefixText = none → fullTextOf e = e.text) := by
  refine ⟨?_, ?_, ?_, ?_⟩
  · intro h
    simp [effectiveDirection, h]
  · intro h
    cases hr : is_rtl_text (fullTextOf e) <;>
      simp [effectiveDirection, h, hr]
  · intro p hp
    simp [fullTextOf, hp]
  · intro hp
    simp [fullTextOf, hp]

theorem C8_direction_override_witness :
    effectiveDirection (sampleText .rtl none "abc") = .rtl :=
  (C8_direction_override (sampleText .rtl none "abc")).1 rfl

/-! Section: C3 — anchor placement -/

/-- C3 counterexample: for a right-to-left script line drawn with explicit
`Rtl` direction and `Right` alignment, the claim demands the drawn origin
`x - w` (here `0 - 10 = -10`); `draw_text_line_improved` takes the
paragraph path and paints at `x = 0`. -/
theorem C3_counterexample :
    draw_text_line_improved probeBackend "ا" 0 0 12 .rtl .right = .paragraphAt 0 (-12) ∧
    (0 : ℚ) ≠ 0 - probeBackend.measure "ا" := by
  constructor
  · have hrtl : is_rtl_text "ا" = true := by decide
    unfold draw_text_line_improved
    rw [if_pos ⟨rfl, hrtl⟩, if_neg (by decide : ¬(TextAlignType.right = TextAlignType.center))]
    norm_num
  · simp only [probeBackend]
    norm_num

/-- C3 (amended): the origin arithmetic `left → x`, `right → x - w`,
`center → x - w/2` holds for every line drawn through the single-run
text-blob path, i.e. whenever the direction is left-to-right or the text is
not right-to-left script — and on that path the arithmetic is independent
of the direction value.  A line with direction `Rtl` whose text *is*
right-to-left script takes the paragraph path instead, whose origin is `x`
for left/right alignment and `x - paragraphLayoutWidth/2` for center,
at `y - fontSize`. -/
theorem C3_anchor_arithmetic (be : Backend) (text : String) (x y fontSize : ℚ) :
    (∀ (align : TextAlignType) (direction : TextDirectionType),
       (direction = .ltr ∨ is_rtl_text text = false) → be.blobOk text = true →
       draw_text_line_improved be text x y fontSize direction align =
         .blobAt (match align with
                  | .left => x
                  | .right => x - be.measure text
                  | .center => x - be.measure text / 2) y) ∧
    (∀ align : TextAlignType, is_rtl_text text = false →
       draw_text_line_improved be text x y fontSize .ltr align =
         draw_text_line_improved be text x y fontSize .rtl align) ∧
    (∀ align : TextAlignType, is_rtl_text text = true →
       draw_text_line_improved be text x y fontSize .rtl align =
         .paragraphAt (if align = .center then x - paragraphLayoutWidth / 2 else x)
           (y - fontSize)) := by
  refine ⟨?_, ?_, ?_⟩
  · intro align direction hdir hblob
    have hcond : ¬(direction = .rtl ∧ is_rtl_text text = true) := by
      rcases hdir with h | h
      · rintro ⟨h2, -⟩
        rw [h] at h2
        exact absurd h2 (by decide)
      · rintro ⟨-, h2⟩
        rw [h] at h2
        exact absurd h2 (by decide)
    simp only [draw_text_line_improved, if_neg hcond, hblob, if_pos]
  · intro align hr
    have h1 : ¬((TextDirectionType.ltr : TextDirectionType) = .rtl ∧ is_rtl_text text = true) := by
      rintro ⟨h, -⟩
      exact absurd h (by decide)
    have h2 : ¬((TextDirectionType.rtl : TextDirectionType) = .rtl ∧ is_rtl_text text = true) := by
      rintro ⟨-, h⟩
      rw [hr] at h
      exact absurd h (by decide)
    unfold draw_text_line_improved
    rw [if_neg h1, if_neg h2]
  · intro align hr
    unfold draw_text_line_improved
    rw [if_pos (show (TextDirectionType.rtl = TextDirectionType.rtl ∧ is_rtl_text text = true)
      from ⟨rfl, hr⟩)]

theorem C3_anchor_arithmetic_witness :
    draw_text_line_improved probeBackend "hi" 7 0 12 .ltr .right = .blobAt (-3) 0 := by
  have h := (C3_anchor_arithmetic probeBackend "hi" 7 0 12).1 .right .ltr (Or.inl rfl) rfl
  rw [h]
  norm_num [probeBackend]

/-! Section: C6 — object-fit geometry -/

theorem ceil_scaled_ge (sw tw q : ℚ) (hsw : 0 < sw) (hq : tw / sw ≤ q) :
    tw ≤ (⌈sw * q⌉ : ℚ) := by
  have h1 : tw = sw * (tw / sw) := by
    field_simp
  have h2 : sw * (tw / sw) ≤ sw * q := mul_le_mul_of_nonneg_left hq (le_of_lt hsw)
  have h3 : sw * q ≤ (⌈sw * q⌉ : ℚ) := Int.le_ceil _
  linarith

theorem floor_scaled_le (sw tw q : ℚ) (hsw : 0 < sw) (hq : q ≤ tw / sw) :
    (⌊sw * q⌋ : ℚ) ≤ tw := by
  have h1 : sw * q ≤ sw * (tw / sw) := mul_le_mul_of_nonneg_left hq (le_of_lt hsw)
  have h2 : sw * (tw / sw) = tw := by
    field_simp
  have h3 : (⌊sw * q⌋ : ℚ) ≤ sw * q := Int.floor_le _
  linarith

/-- C6: for positive source dimensions `(sw, sh)` and target dimensions
`(tw, th)`, `scale_image`'s geometry gives: *cover* the uniform scale
`max (tw/sw, th/sh)` with the (`ceil`-rounded) scaled extent centred over
the target box — equal margins on both sides — and at least covering it;
*contain* the uniform scale `min (tw/sw, th/sh)` with the rounded extent
centred and lying fully inside the target box; *stretch* the full source
rectangle mapped onto the full `(0,0)–(tw,th)` target rectangle, i.e.
independent per-axis scales `(tw/sw, th/sh)`.  On a 100×200 source into a
200×200 target: cover scale `2`, contain scale `1`, stretch scales `(2,1)`. -/
theorem C6_object_fit (sw sh tw th : ℚ)
    (hsw : 0 < sw) (hsh : 0 < sh) (htw : 0 < tw) (hth : 0 < th) :
    (∃ scale x y, fitPlacement sw sh tw th .cover = .cover scale x y ∧
       scale = max (tw / sw) (th / sh) ∧
       x = tw - (x + (⌈sw * scale⌉ : ℚ)) ∧ y = th - (y + (⌈sh * scale⌉ : ℚ)) ∧
       tw ≤ (⌈sw * scale⌉ : ℚ) ∧ th ≤ (⌈sh * scale⌉ : ℚ)) ∧
    (∃ x y w h, fitPlacement sw sh tw th .contain = .contain x y w h ∧
       w = ⌊sw * min (tw / sw) (th / sh)⌋ ∧ h = ⌊sh * min (tw / sw) (th / sh)⌋ ∧
       x = tw - (x + (w : ℚ)) ∧ y = th - (y + (h : ℚ)) ∧
       0 ≤ x ∧ x + (w : ℚ) ≤ tw ∧ 0 ≤ y ∧ y + (h : ℚ) ≤ th) ∧
    fitPlacement sw sh tw th .stretch = .stretch tw th ∧
    (fitPlacement 100 200 200 200 .cover = .cover 2 0 (-100) ∧
     max ((200 : ℚ) / 100) (200 / 200) = 2 ∧
     fitPlacement 100 200 200 200 .contain = .contain 50 0 100 200 ∧
     min ((200 : ℚ) / 100) (200 / 200) = 1 ∧
     fitPlacement 100 200 200 200 .stretch = .stretch 200 200 ∧
     (200 : ℚ) / 100 = 2 ∧ (200 : ℚ) / 200 = 1) := by
  refine ⟨?_, ?_, rfl, ?_, by norm_num, ?_, by norm_num, rfl, by norm_num, by norm_num⟩
  · refine ⟨max (tw / sw) (th / sh), _, _, rfl, rfl, by ring, by ring, ?_, ?_⟩
    · exact ceil_scaled_ge sw tw _ hsw (le_max_left _ _)
    · exact ceil_scaled_ge sh th _ hsh (le_max_right _ _)
  · have hW : (⌊sw * min (tw / sw) (th / sh)⌋ : ℚ) ≤ tw :=
      floor_scaled_le sw tw _ hsw (min_le_left _ _)
    have hH : (⌊sh * min (tw / sw) (th / sh)⌋ : ℚ) ≤ th :=
      floor_scaled_le sh th _ hsh (min_le_right _ _)
    refine ⟨_, _, _, _, rfl, rfl, rfl, by ring, by ring, ?_, ?_, ?_, ?_⟩ <;> linarith
  · show fitPlacement 100 200 200 200 .cover = .cover 2 0 (-100)
    unfold fitPlacement
    norm_num
  · show fitPlacement 100 200 200 200 .contain = .contain 50 0 100 200
    unfold fitPlacement
    norm_num

theorem C6_object_fit_witness :
    ∃ scale x y, fitPlacement 100 200 200 200 .cover = .cover scale x y ∧
      scale = max ((200 : ℚ) / 100) (200 / 200) ∧
      x = 200 - (x + (⌈(100 : ℚ) * scale⌉ : ℚ)) ∧
      y = 200 - (y + (⌈(200 : ℚ) * scale⌉ : ℚ)) ∧
      (200 : ℚ) ≤ (⌈(100 : ℚ) * scale⌉ : ℚ) ∧ (200 : ℚ) ≤ (⌈(200 : ℚ) * scale⌉ : ℚ) :=
  (C6_object_fit 100 200 200 200 (by norm_num) (by norm_num) (by norm_num) (by norm_num)).1

/-! Section: C1 — depth ordering -/

theorem insertByKey_perm (e : Element) (t : List Element) :
    (insertByKey e t).Perm (e :: t) := by
  induction t with
  | nil => exact List.Perm.refl _
  | cons f fs ih =>
    rw [insertByKey]
    by_cases hf : f.z_index < e.z_index
    · rw [if_pos hf]
      exact (ih.cons f).trans (List.Perm.swap e f fs)
    · rw [if_neg hf]

theorem sorted_elements_perm (l : List Element) : (sorted_elements l).Perm l := by
  induction l with
  | nil => exact List.Perm.refl _
  | cons e es ih =>
    rw [sorted_elements]
    exact (insertByKey_perm e (sorted_elements es)).trans (ih.cons e)

theorem mem_insertByKey {a e : Element} {t : List Element} :
    a ∈ insertByKey e t ↔ a = e ∨ a ∈ t := by
  rw [(insertByKey_perm e t).mem_iff, List.mem_cons]

theorem insertByKey_pairwise (e : Element) (t : List Element)
    (h : t.Pairwise (fun a b => a.z_index ≤ b.z_index)) :
    (insertByKey e t).Pairwise (fun a b => a.z_index ≤ b.z_index) := by
  induction t with
  | nil => simp [insertByKey]
  | cons f fs ih =>
    rw [List.pairwise_cons] at h
    obtain ⟨hf_all, hfs⟩ := h
    rw [insertByKey]
    by_cases hf : f.z_index < e.z_index
    · rw [if_pos hf]
      rw [List.pairwise_cons]
      refine ⟨?_, ih hfs⟩
      intro a ha
      rcases mem_insertByKey.mp ha with rfl | ha
      · exact le_of_lt hf
      · exact hf_all a ha
    · rw [if_neg hf]
      rw [List.pairwise_cons]
      refine ⟨?_, List.pairwise_cons.mpr ⟨hf_all, hfs⟩⟩
      intro a ha
      rcases List.mem_cons.mp ha with rfl | ha
      · exact le_of_not_lt hf
      · exact le_trans (le_of_not_lt hf) (hf_all a ha)

theorem sorted_elements_pairwise (l : List Element) :
    (sorted_elements l).Pairwise (fun a b => a.z_index ≤ b.z_index) := by
  induction l with
  | nil => exact List.Pairwise.nil
  | cons e es ih =>
    rw [sorted_elements]
    exact insertByKey_pairwise e (sorted_elements es) ih

theorem insertByKey_filter (e : Element) (t : List Element) (k : Int) :
    (insertByKey e t).filter (fun a => a.z_index == k) =
      (if e.z_index = k then [e] else []) ++ t.filter (fun a => a.z_index == k) := by
  induction t with
  | nil =>
    rw [insertByKey]
    by_cases hek : e.z_index = k <;>
      simp [List.filter_cons, hek]
  | cons f fs ih =>
    rw [insertByKey]
    by_cases hf : f.z_index < e.z_index
    · rw [if_pos hf]
      by_cases hek : e.z_index = k
      · have hfk : ¬(f.z_index = k) := by omega
        simp [List.filter_cons, hfk, hek, ih]
      · simp [List.filter_cons, hek, ih]
    · rw [if_neg hf]
      by_cases hek : e.z_index = k <;>
        simp [List.filter_cons, hek]

theorem sorted_elements_filter (l : List Element) (k : Int) :
    (sorted_elements l).filter (fun a => a.z_index == k) =
      l.filter (fun a => a.z_index == k) := by
  induction l with
  | nil => rfl
  | cons e es ih =>
    rw [sorted_elements, insertByKey_filter, ih, List.filter_cons]
    by_cases hek : e.z_index = k <;> simp [hek]

theorem isBackground_z_index {e : Element} (h : e.isBackground = true) :
    e.z_index = -1000 := by
  cases e with
  | background b => rfl
  | image i => exact absurd h (by simp [Element.isBackground])
  | text t => exact absurd h (by simp [Element.isBackground])

/-- C1 counterexample: the claim says that for any set of elements with
explicit depths the sorted sequence begins at index 0 with all Background
elements; but an Image with explicit depth `-2000` sorts *before* the
fixed Background key `-1000`, so the sorted list starts with a
non-Background element. -/
theorem C1_counterexample :
    imgBelow.z_index = some (-2000) ∧
    sorted_elements [.image imgBelow, .background bgSample] =
      [.image imgBelow, .background bgSample] ∧
    (Element.image imgBelow).isBackground = false :=
  ⟨rfl, rfl, rfl⟩

/-- C1 (amended): rendering order is the element list stable-sorted by
ascending depth key — Background's key is the constant `-1000`, Image/Text
use the explicit `z_index` if present else `0`; the sort is a permutation,
pairwise ascending in key, and elements sharing one depth value keep their
original insertion order (the filter at each key is unchanged).  *Provided
every non-Background element's key exceeds `-1000`*, the sorted sequence
begins at index 0 with all Background elements (Backgrounds form a prefix). -/
theorem C1_depth_ordering (l : List Element) :
    (∀ b, (Element.background b).z_index = -1000) ∧
    (∀ e, (Element.image e).z_index = e.z_index.getD 0) ∧
    (∀ e, (Element.text e).z_index = e.z_index.getD 0) ∧
    (sorted_elements l).Perm l ∧
    (sorted_elements l).Pairwise (fun a b => a.z_index ≤ b.z_index) ∧
    (∀ k : Int, (sorted_elements l).filter (fun a => a.z_index == k) =
       l.filter (fun a => a.z_index == k)) ∧
    ((∀ e ∈ l, e.isBackground = false → -1000 < e.z_index) →
      ∀ i j : Fin (sorted_elements l).length, i ≤ j →
        ((sorted_elements l).get j).isBackground = true →
        ((sorted_elements l).get i).isBackground = true) := by
  refine ⟨fun _ => rfl, fun _ => rfl, fun _ => rfl, sorted_elements_perm l,
    sorted_elements_pairwise l, sorted_elements_filter l, ?_⟩
  intro h i j hij hbgj
  rcases eq_or_lt_of_le hij with heq | hlt
  · rwa [heq]
  · have hle : ((sorted_elements l).get i).z_index ≤ ((sorted_elements l).get j).z_index :=
      (List.pairwise_iff_get.mp (sorted_elements_pairwise l)) i j hlt
    rw [isBackground_z_index hbgj] at hle
    have hmem : (sorted_elements l).get i ∈ l :=
      (sorted_elements_perm l).mem_iff.mp (List.get_mem _ _ i.isLt)
    by_contra hnb
    have hfalse : ((sorted_elements l).get i).isBackground = false := by
      cases hb : ((sorted_elements l).get i).isBackground
      · rfl
      · exact absurd hb hnb
    have := h _ hmem hfalse
    omega

theorem C1_depth_ordering_witness :
    ((sorted_elements [.image imgFive, .background bgSample, .background bgSample]).get
      ⟨0, by decide⟩).isBackground = true :=
  (C1_depth_ordering [.image imgFive, .background bgSample, .background bgSample]).2.2.2.2.2.2
    (by decide) ⟨0, by decide⟩ ⟨1, by decide⟩ (by decide) (by decide)

/-! Section: C2 — failure semantics of `generate` -/

theorem renderAll_ok_iff (be : Backend) (w h : Int) (es : List Element) :
    renderAll be w h es = some (.ok ()) ↔
      ∀ e ∈ es, e.render be w h = some (.ok ()) := by
  induction es with
  | nil => simp [renderAll]
  | cons e es ih =>
    rw [renderAll]
    rcases hr : e.render be w h with _ | r
    · constructor
      · intro hfalse
        exact absurd hfalse (by simp)
      · intro hall
        have := hall e (List.mem_cons_self e es)
        rw [hr] at this
        exact absurd this (by simp)
    · rcases r with err | u
      · constructor
        · intro hfalse
          exact absurd hfalse (by simp)
        · intro hall
          have := hall e (List.mem_cons_self e es)
          rw [hr] at this
          exact absurd this (by simp)
      · cases u
        rw [ih]
        constructor
        · intro hall f hf
          rcases List.mem_cons.mp hf with rfl | hf
          · exact hr
          · exact hall f hf
        · intro hall f hf
          exact hall f (List.mem_cons_of_mem e hf)

theorem background_render_error_iff (be : Backend) (w h : Int) (bgE : BackgroundElement) :
    (∃ err, Element.render be w h (.background bgE) = some (.error err)) ↔
    ((parse_color bgE.color).isSome = true ∧ ∃ p img, bgE.image = some p ∧
      be.loadImage p = some img ∧ be.surfaceOk w h = false) := by
  rcases hc : parse_color bgE.color with _ | c
  · simp [Element.render, BackgroundElement.render, hc]
  · cases him : bgE.image with
    | none => simp [Element.render, BackgroundElement.render, hc, him]
    | some p =>
      cases hload : be.loadImage p with
      | none => simp [Element.render, BackgroundElement.render, hc, him, hload]
      | some img =>
        cases hs : be.surfaceOk w h with
        | true =>
          simp [Element.render, BackgroundElement.render, hc, him, hload, scale_image,
            Int.floor_intCast, hs]
        | false =>
          simp [Element.render, BackgroundElement.render, hc, him, hload, scale_image,
            Int.floor_intCast, hs]

theorem background_render_none_iff (be : Backend) (w h : Int) (bgE : BackgroundElement) :
    Element.render be w h (.background bgE) = none ↔ parse_color bgE.color = none := by
  rcases hc : parse_color bgE.color with _ | c
  · simp [Element.render, BackgroundElement.render, hc]
  · cases him : bgE.image with
    | none => simp [Element.render, BackgroundElement.render, hc, him]
    | some p =>
      cases hload : be.loadImage p with
      | none => simp [Element.render, BackgroundElement.render, hc, him, hload]
      | some img =>
        rcases hsc : scale_image be img (w : ℚ) (h : ℚ) .cover with fit | err <;>
          simp [Element.render, BackgroundElement.render, hc, him, hload, hsc]

theorem image_render_error_iff (be : Backend) (w h : Int) (e : ImageElement) :
    (∃ err, Element.render be w h (.image e) = some (.error err)) ↔
    (be.loadImage e.src = none ∨ be.surfaceOk ⌊e.width⌋ ⌊e.height⌋ = false) := by
  cases hload : be.loadImage e.src with
  | none => simp [Element.render, ImageElement.render, hload]
  | some img =>
    cases hs : be.surfaceOk ⌊e.width⌋ ⌊e.height⌋ with
    | true => simp [Element.render, ImageElement.render, hload, scale_image, hs]
    | false => simp [Element.render, ImageElement.render, hload, scale_image, hs]

theorem image_render_ne_none (be : Backend) (w h : Int) (e : ImageElement) :
    Element.render be w h (.image e) ≠ none := by
  cases hload : be.loadImage e.src with
  | none => simp [Element.render, ImageElement.render, hload]
  | some img =>
    rcases hsc : scale_image be img e.width e.height e.object_fit with fit | err <;>
      simp [Element.render, ImageElement.render, hload, hsc]

theorem text_render_no_error (be : Backend) (w h : Int) (t : TextElement)
    (err : PosterError) :
    Element.render be w h (.text t) ≠ some (.error err) := by
  rcases hc : parse_color t.color with _ | c
  · simp [Element.render, TextElement.render, hc]
  · rcases hbg : (match t.background_color with
        | some bg_color_str => parse_color bg_color_str
        | none => some SkColor.black) with _ | bgc
    · simp [Element.render, TextElement.render, hc, hbg]
    · rcases hmw : t.max_width with _ | mw
      · simp [Element.render, TextElement.render, hc, hbg, hmw]
      · rcases hwrap : break_text_rtl be.measure (fullTextOf t) mw t.max_lines with _ | ls <;>
          simp [Element.render, TextElement.render, hc, hbg, hmw, hwrap]

theorem text_render_none_iff (be : Backend) (w h : Int) (t : TextElement) :
    Element.render be w h (.text t) = none ↔
      (parse_color t.color = none ∨
       (∃ bg, t.background_color = some bg ∧ parse_color bg = none) ∨
       (∃ mw, t.max_width = some mw ∧
         break_text_rtl be.measure (fullTextOf t) mw t.max_lines = none)) := by
  rcases hc : parse_color t.color with _ | c
  · simp [Element.render, TextElement.render, hc]
  · rcases hbgo : t.background_color with _ | bg
    · rcases hmw : t.max_width with _ | mw
      · simp [Element.render, TextElement.render, hc, hbgo, hmw]
      · rcases hwrap : break_text_rtl be.measure (fullTextOf t) mw t.max_lines with _ | ls <;>
          simp [Element.render, TextElement.render, hc, hbgo, hmw, hwrap]
    · rcases hbg : parse_color bg with _ | bgc
      · simp [Element.render, TextElement.render, hc, hbgo, hbg]
      · rcases hmw : t.max_width with _ | mw
        · simp [Element.render, TextElement.render, hc, hbgo, hbg, hmw]
        · rcases hwrap : break_text_rtl be.measure (fullTextOf t) mw t.max_lines with _ | ls <;>
            simp [Element.render, TextElement.render, hc, hbgo, hbg, hmw, hwrap]

theorem generate_ok_iff (be : Backend) (g : PosterGenerator) :
    (∃ bytes, g.generate be = some (.ok bytes)) ↔
      (be.surfaceOk g.width g.height = true ∧
       (parse_color g.background_color).isSome = true ∧
       (∀ e ∈ g.elements, e.render be g.width g.height = some (.ok ())) ∧
       be.encodePNG.isSome = true) := by
  have hmem : ∀ e : Element, e ∈ sorted_elements g.elements ↔ e ∈ g.elements :=
    fun e => (sorted_elements_perm g.elements).mem_iff
  unfold PosterGenerator.generate
  cases hs : be.surfaceOk (g.width : Int) (g.height : Int) with
  | false => simp [hs]
  | true =>
    rcases hp : parse_color g.background_color with _ | pc
    · constructor
      · rintro ⟨b, hb⟩
        exact absurd hb (by simp)
      · rintro ⟨-, hsome, -, -⟩
        exact absurd hsome (by simp)
    · rcases hr : renderAll be (g.width : Int) (g.height : Int)
          (sorted_elements g.elements) with _ | r
      · constructor
        · rintro ⟨b, hb⟩
          exact absurd hb (by simp)
        · rintro ⟨-, -, hall, -⟩
          have : renderAll be (g.width : Int) (g.height : Int)
              (sorted_elements g.elements) = some (.ok ()) :=
            (renderAll_ok_iff be _ _ _).mpr fun e hmem2 => hall e ((hmem e).mp hmem2)
          rw [hr] at this
          exact absurd this (by simp)
      · rcases r with err | u
        · constructor
          · rintro ⟨b, hb⟩
            exact absurd hb (by simp)
          · rintro ⟨-, -, hall, -⟩
            have : renderAll be (g.width : Int) (g.height : Int)
                (sorted_elements g.elements) = some (.ok ()) :=
              (renderAll_ok_iff be _ _ _).mpr fun e hmem2 => hall e ((hmem e).mp hmem2)
            rw [hr] at this
            exact absurd this (by simp)
        · cases u
          have hall := (renderAll_ok_iff be _ _ _).mp hr
          cases he : be.encodePNG with
          | some bytes =>
            constructor
            · intro _
              exact ⟨rfl, rfl, fun e hmem2 => hall e ((hmem e).mpr hmem2), rfl⟩
            · intro _
              exact ⟨bytes, rfl⟩
          | none =>
            constructor
            · rintro ⟨b, hb⟩
              exact absurd hb (by simp)
            · rintro ⟨-, -, -, hsome⟩
              exact absurd hsome (by simp)

/-- C2 counterexample: an Image element whose source fails to load aborts
the whole render with `ImageLoadError` — it is *not* handled gracefully,
contradicting the claim that any element's failing image load degrades
without raising an error. -/
theorem C2_counterexample :
    PosterGenerator.generate probeBackend
      ⟨800, 600, "#ffffff", [.image imgBelow]⟩ =
      some (.error (.imageLoadError "a.png")) := rfl

/-- C2 (amended): apart from the reachable panics — `break_text_rtl`'s
`lines.last_mut().unwrap()` under `max_lines = Some(0)` and `parse_color`'s
byte slicing on a malformed multi-byte colour string, both modelled as
`none` — a call to `generate` either fully succeeds with complete encoded
bytes or fails atomically with a single error value (trichotomy: panic,
one error, or complete bytes); it succeeds exactly when the surface can be
created, the background colour parses without panicking, every element
renders, and the surface encodes.  A Text element never produces an error
value: it degrades gracefully or panics exactly on a panicking colour
parse or a panicking wrap.  A Background element panics exactly when its
colour parse panics, and errors exactly when its optional image *loads
successfully* but the scaling surface cannot be created (a failing
background image load is silently skipped).  An Image element never
panics, and errors exactly when its source fails to load or its scaling
surface cannot be created. -/
theorem C2_error_semantics (be : Backend) (g : PosterGenerator) :
    (g.generate be = none ∨ (∃ err, g.generate be = some (.error err)) ∨
      (∃ bytes, g.generate be = some (.ok bytes))) ∧
    ¬((∃ bytes, g.generate be = some (.ok bytes)) ∧
      (∃ err, g.generate be = some (.error err))) ∧
    ((∃ bytes, g.generate be = some (.ok bytes)) ↔
      (be.surfaceOk g.width g.height = true ∧
       (parse_color g.background_color).isSome = true ∧
       (∀ e ∈ g.elements, e.render be g.width g.height = some (.ok ())) ∧
       be.encodePNG.isSome = true)) ∧
    (∀ (t : TextElement) (err : PosterError),
      Element.render be g.width g.height (.text t) ≠ some (.error err)) ∧
    (∀ t : TextElement, Element.render be g.width g.height (.text t) = none ↔
      (parse_color t.color = none ∨
       (∃ bg, t.background_color = some bg ∧ parse_color bg = none) ∨
       (∃ mw, t.max_width = some mw ∧
         break_text_rtl be.measure (fullTextOf t) mw t.max_lines = none))) ∧
    (∀ bgE : BackgroundElement,
      ((∃ err, Element.render be g.width g.height (.background bgE) = some (.error err)) ↔
        ((parse_color bgE.color).isSome = true ∧ ∃ p img, bgE.image = some p ∧
          be.loadImage p = some img ∧ be.surfaceOk g.width g.height = false)) ∧
      (Element.render be g.width g.height (.background bgE) = none ↔
        parse_color bgE.color = none)) ∧
    (∀ imgE : ImageElement,
      Element.render be g.width g.height (.image imgE) ≠ none ∧
      ((∃ err, Element.render be g.width g.height (.image imgE) = some (.error err)) ↔
        (be.loadImage imgE.src = none ∨
          be.surfaceOk ⌊imgE.width⌋ ⌊imgE.height⌋ = false))) := by
  refine ⟨?_, ?_, generate_ok_iff be g,
    fun t err => text_render_no_error be _ _ t err,
    fun t => text_render_none_iff be _ _ t,
    fun bgE => ⟨background_render_error_iff be _ _ bgE,
      background_render_none_iff be _ _ bgE⟩,
    fun imgE => ⟨image_render_ne_none be _ _ imgE,
      image_render_error_iff be _ _ imgE⟩⟩
  · rcases hg : g.generate be with _ | r
    · exact Or.inl rfl
    · rcases r with err | b
      · exact Or.inr (Or.inl ⟨err, rfl⟩)
      · exact Or.inr (Or.inr ⟨b, rfl⟩)
  · rintro ⟨⟨b, hb⟩, ⟨err, herr⟩⟩
    rw [hb] at herr
    exact absurd herr (by simp)

theorem C2_error_semantics_witness :
    ∃ bytes, PosterGenerator.generate happyBackend
      ⟨800, 600, "#ffffff", [.background bgSample, .text (sampleText .ltr none "Hello")]⟩ =
        some (.ok bytes) :=
  (C2_error_semantics happyBackend _).2.2.1.mpr
    ⟨rfl, by decide, by intro e he; fin_cases he <;> rfl, rfl⟩

/-! Section: string and tokenisation lemmas -/

theorem String.ne_empty_iff_data (s : String) : s ≠ "" ↔ s.data ≠ [] := by
  constructor
  · intro h hdata
    exact h (String.ext hdata)
  · intro h heq
    rw [heq] at h
    exact h rfl

theorem length_pos_of_ne_empty {s : String} (h : s ≠ "") : 0 < s.length := by
  have hd : s.data ≠ [] := (String.ne_empty_iff_data s).mp h
  have : s.length = s.data.length := rfl
  rw [this]
  exact List.length_pos.mpr hd

theorem splitWsAux_ne_empty : ∀ (cs acc : List Char), ∀ w ∈ splitWsAux cs acc, w ≠ "" := by
  intro cs
  induction cs with
  | nil =>
    intro acc w hw
    rw [splitWsAux] at hw
    by_cases hacc : acc.isEmpty
    · rw [if_pos hacc] at hw
      exact absurd hw (List.not_mem_nil w)
    · rw [if_neg hacc] at hw
      rcases List.mem_singleton.mp hw with rfl
      intro h
      have hdata : acc.reverse = [] := congrArg String.data h
      rw [List.reverse_eq_nil_iff] at hdata
      rw [hdata] at hacc
      exact hacc rfl
  | cons c cs ih =>
    intro acc w hw
    rw [splitWsAux] at hw
    by_cases hws : c.isWhitespace
    · rw [if_pos hws] at hw
      by_cases hacc : acc.isEmpty
      · rw [if_pos hacc] at hw
        exact ih [] w hw
      · rw [if_neg hacc] at hw
        rcases List.mem_cons.mp hw with rfl | hw
        · intro h
          have hdata : acc.reverse = [] := congrArg String.data h
          rw [List.reverse_eq_nil_iff] at hdata
          rw [hdata] at hacc
          exact hacc rfl
        · exact ih [] w hw
    · rw [if_neg hws] at hw
      exact ih (c :: acc) w hw

theorem splitWhitespace_ne_empty (s : String) : ∀ w ∈ splitWhitespace s, w ≠ "" :=
  splitWsAux_ne_empty s.data []

theorem joinSp_singleton (w : String) : joinSp [w] = w := rfl

theorem joinSp_cons_append_one (a : String) (as : List String) (w : String) :
    joinSp ((a :: as) ++ [w]) = joinSp (a :: as) ++ " " ++ w := by
  show (as ++ [w]).foldl (fun acc v => acc ++ " " ++ v) a = _
  rw [List.foldl_append]
  rfl

theorem foldl_joinSp_length (ws : List String) (acc : String) :
    acc.length ≤ (ws.foldl (fun a v => a ++ " " ++ v) acc).length := by
  induction ws generalizing acc with
  | nil => exact le_refl _
  | cons w ws ih =>
    refine le_trans ?_ (ih (acc ++ " " ++ w))
    rw [String.length_append, String.length_append]
    omega

theorem joinSp_cons_ne_empty (w : String) (ws : List String) (hw : w ≠ "") :
    joinSp (w :: ws) ≠ "" := by
  intro h
  have h1 : (joinSp (w :: ws)).length = 0 := by rw [h]; rfl
  have h2 : w.length ≤ (joinSp (w :: ws)).length := foldl_joinSp_length ws w
  have h3 : 0 < w.length := length_pos_of_ne_empty hw
  omega

/-! Section: C5 — ellipsis truncation -/

theorem truncAccum_data (measure : String → ℚ) (avail : ℚ) :
    ∀ (cs : List Char) (acc : String),
      ∃ k, (truncAccum measure avail cs acc).data = acc.data ++ cs.take k := by
  intro cs
  induction cs with
  | nil =>
    intro acc
    exact ⟨0, by simp [truncAccum]⟩
  | cons c cs ih =>
    intro acc
    rw [truncAccum]
    by_cases hc : measure (acc.push c) ≤ avail
    · rw [if_pos hc]
      obtain ⟨k, hk⟩ := ih (acc.push c)
      refine ⟨k + 1, ?_⟩
      rw [hk, String.data_push]
      simp
    · rw [if_neg hc]
      exact ⟨0, by simp⟩

theorem truncAccum_bound (measure : String → ℚ) (avail : ℚ) :
    ∀ (cs : List Char) (acc : String), measure acc ≤ avail →
      measure (truncAccum measure avail cs acc) ≤ avail := by
  intro cs
  induction cs with
  | nil => intro acc h; exact h
  | cons c cs ih =>
    intro acc h
    rw [truncAccum]
    by_cases hc : measure (acc.push c) ≤ avail
    · rw [if_pos hc]
      exact ih (acc.push c) hc
    · rw [if_neg hc]
      exact h

theorem truncate_with_ellipsis_rtl_eq (measure : String → ℚ) (text : String) (mw : ℚ) :
    truncate_with_ellipsis_rtl measure text mw = truncate_with_ellipsis measure text mw := by
  simp only [truncate_with_ellipsis_rtl, truncate_with_ellipsis, ite_self]

/-- C5 counterexample: with a per-character width of 1 and `max_width = 2`,
the overlong input `"abcd"` truncates to `"..."` alone, whose measured
width `3` exceeds `max_width` — refuting the claim that the result's width
including the ellipsis is always at most `max_width`. -/
theorem C5_counterexample :
    truncate_with_ellipsis lenMeasure "abcd" 2 = "..." ∧
    ¬ lenMeasure "..." ≤ 2 := by
  have habcd : lenMeasure "abcd" = 4 := by
    rw [lenMeasure, show ("abcd" : String).data = ['a', 'b', 'c', 'd'] from rfl]
    norm_num
  have hell : lenMeasure "..." = 3 := by
    rw [lenMeasure, show ("..." : String).data = ['.', '.', '.'] from rfl]
    norm_num
  have ha : lenMeasure ("".push 'a') = 1 := by
    rw [lenMeasure, show (("" : String).push 'a').data = ['a'] from rfl]
    norm_num
  constructor
  · simp only [truncate_with_ellipsis]
    rw [if_neg (by rw [habcd]; norm_num)]
    rw [truncAccum]
    rw [if_neg (by rw [ha, hell]; norm_num)]
    rfl
  · rw [hell]
    norm_num

/-- C5 (amended): `truncate_with_ellipsis` returns the string unchanged when
its measured width fits `max_width`; on an overlong string the result is
`kept ++ "..."` — it always ends with the ellipsis marker — where `kept` is
a prefix of the input's character sequence; and *when the measure is
per-character additive and the ellipsis itself fits `max_width`*, the
result's measured width including the ellipsis is at most `max_width`
(for an arbitrary measure, or `max_width` below the ellipsis width, the
width bound can fail, as the counterexample shows).  The RTL variant is
extensionally the same function. -/
theorem C5_truncation (measure : String → ℚ) (text : String) (max_width : ℚ) :
    (measure text ≤ max_width → truncate_with_ellipsis measure text max_width = text) ∧
    (¬ measure text ≤ max_width →
      ∃ kept : String,
        truncate_with_ellipsis measure text max_width = kept ++ "..." ∧
        (∃ rest, kept.data ++ rest = text.data) ∧
        ((∃ charW : Char → ℚ, ∀ s : String, measure s = (s.data.map charW).sum) →
          measure "..." ≤ max_width →
          measure (kept ++ "...") ≤ max_width)) ∧
    truncate_with_ellipsis_rtl measure text max_width =
      truncate_with_ellipsis measure text max_width := by
  refine ⟨?_, ?_, truncate_with_ellipsis_rtl_eq measure text max_width⟩
  · intro h
    rw [truncate_with_ellipsis, if_pos h]
  · intro h
    rw [truncate_with_ellipsis, if_neg h]
    refine ⟨truncAccum measure (max_width - measure "...") text.data "", rfl, ?_, ?_⟩
    · obtain ⟨k, hk⟩ := truncAccum_data measure (max_width - measure "...") text.data ""
      refine ⟨text.data.drop k, ?_⟩
      rw [hk]
      simp
    · rintro ⟨charW, hadd⟩ hell
      have h0 : measure "" = 0 := by rw [hadd]; rfl
      have hbound := truncAccum_bound measure (max_width - measure "...") text.data ""
        (by rw [h0]; linarith)
      have hsplit : measure (truncAccum measure (max_width - measure "...") text.data "" ++ "...")
          = measure (truncAccum measure (max_width - measure "...") text.data "")
            + measure "..." := by
        rw [hadd, hadd, hadd, String.data_append, List.map_append, List.sum_append]
      linarith

theorem C5_truncation_witness :
    truncate_with_ellipsis lenMeasure "ab" 5 = "ab" :=
  (C5_truncation lenMeasure "ab" 5).1
    (by rw [lenMeasure, show ("ab" : String).data = ['a', 'b'] from rfl]; norm_num)

/-! Section: C4 — word wrapping without a line cap -/

theorem breakLoop_none_spec (measure : String → ℚ) (max_width : ℚ) :
    ∀ (words : List String) (groups : List (List String)) (curGroup : List String)
      (lines : List String) (cur : String),
      (∀ w ∈ words, w ≠ "") →
      WrapInv measure max_width groups curGroup lines cur →
      ∃ groups2 curGroup2,
        breakLoop measure max_width none words lines cur =
          (groups2.map joinSp, joinSp curGroup2) ∧
        WrapInv measure max_width groups2 curGroup2 (groups2.map joinSp) (joinSp curGroup2) ∧
        groups2.flatten ++ curGroup2 = groups.flatten ++ (curGroup ++ words) := by
  intro words
  induction words with
  | nil =>
    intro groups curGroup lines cur hw hinv
    obtain ⟨hlines, hcur, hrest⟩ := hinv
    subst hlines
    subst hcur
    exact ⟨groups, curGroup, rfl, ⟨rfl, rfl, hrest⟩, by simp⟩
  | cons word ws ih =>
    intro groups curGroup lines cur hw hinv
    obtain ⟨hlines, hcur, hemp, hgroups, hcurfit, hcurel⟩ := hinv
    subst hlines
    subst hcur
    have hword : word ≠ "" := hw word (List.mem_cons_self _ _)
    have hwtail : ∀ w ∈ ws, w ≠ "" := fun w h => hw w (List.mem_cons_of_mem _ h)
    simp only [breakLoop]
    rcases hemp with ⟨hce, hge⟩ | ⟨hce, hge⟩
    · subst hge
      rw [if_pos (show (joinSp ([] : List String)).isEmpty = true from rfl)]
      rw [if_pos (Or.inr (show (joinSp ([] : List String)).isEmpty = true from rfl))]
      obtain ⟨g2, c2, heq, hinv2, hflat⟩ := ih groups [word] (groups.map joinSp) word hwtail
        ⟨rfl, (joinSp_singleton word).symm,
         Or.inr ⟨hword, by simp⟩, hgroups,
         fun _ => Or.inr ⟨word, rfl⟩, by simp [hword]⟩
      exact ⟨g2, c2, heq, hinv2, by rw [hflat]; simp⟩
    · obtain ⟨a, as, rfl⟩ := List.exists_cons_of_ne_nil hge
      have hne : ¬((joinSp (a :: as)).isEmpty = true) := fun h =>
        hce ((String.isEmpty_iff _).mp h)
      rw [if_neg hne]
      have ha : a ≠ "" := hcurel a (List.mem_cons_self _ _)
      by_cases hcond : measure (joinSp (a :: as) ++ " " ++ word) ≤ max_width
      · rw [if_pos (Or.inl hcond)]
        rw [← joinSp_cons_append_one a as word]
        obtain ⟨g2, c2, heq, hinv2, hflat⟩ := ih groups ((a :: as) ++ [word])
          (groups.map joinSp) (joinSp ((a :: as) ++ [word])) hwtail
          ⟨rfl, rfl,
           Or.inr ⟨by
              show joinSp (a :: (as ++ [word])) ≠ ""
              exact joinSp_cons_ne_empty a _ ha, by simp⟩,
           hgroups,
           fun _ => Or.inl (by rw [joinSp_cons_append_one]; exact hcond),
           by
             intro w hwmem
             rcases List.mem_append.mp hwmem with hmem | hmem
             · exact hcurel w hmem
             · rcases List.mem_singleton.mp hmem with rfl
               exact hword⟩
        refine ⟨g2, c2, heq, hinv2, ?_⟩
        rw [hflat]
        simp
      · rw [if_neg (by
          rintro (h | h)
          · exact hcond h
          · exact hne h)]
        obtain ⟨g2, c2, heq, hinv2, hflat⟩ := ih (groups ++ [a :: as]) [word]
          (groups.map joinSp ++ [joinSp (a :: as)]) word hwtail
          ⟨by simp, (joinSp_singleton word).symm,
           Or.inr ⟨hword, by simp⟩,
           by
             intro g hg
             rcases List.mem_append.mp hg with hmem | hmem
             · exact hgroups g hmem
             · rcases List.mem_singleton.mp hmem with rfl
               exact ⟨by simp, hcurfit hge⟩,
           fun _ => Or.inr ⟨word, rfl⟩, by simp [hword]⟩
        refine ⟨g2, c2, heq, hinv2, ?_⟩
        rw [hflat]
        simp

theorem break_text_rtl_eq (measure : String → ℚ) (text : String) (max_width : ℚ)
    (max_lines : Option Nat) :
    break_text_rtl measure text max_width max_lines =
      break_text measure text max_width max_lines := by
  have htr : truncate_with_ellipsis_rtl measure = truncate_with_ellipsis measure :=
    funext fun t => funext fun mw => truncate_with_ellipsis_rtl_eq measure t mw
  simp only [break_text_rtl, break_text, ite_self, htr]

/-- C4: for every input text, maximum width and text-measure function, the
(uncapped) word-wrap of `break_text` / `break_text_rtl` splits the text on
whitespace and greedily groups consecutive tokens: there is a grouping of
the full token sequence (so in particular the concatenation of the returned
lines' tokens, in order, is a prefix of — here all of — the input's token
sequence), each returned line is the space-join of one non-empty group,
each line is non-empty, and each line either fits `max_width` or is exactly
one whitespace-delimited token of the input (an overlong single token is
accepted as-is, never split mid-token). -/
theorem C4_word_wrap (measure : String → ℚ) (text : String) (max_width : ℚ) :
    ∃ lines : List String,
      break_text measure text max_width none = some lines ∧
      break_text_rtl measure text max_width none = some lines ∧
      ∃ groups : List (List String),
        groups.flatten = splitWhitespace text ∧
        lines = groups.map joinSp ∧
        (∀ g ∈ groups, g ≠ []) ∧
        ∀ line ∈ lines, line ≠ "" ∧
          (measure line ≤ max_width ∨ line ∈ splitWhitespace text) := by
  obtain ⟨g2, c2, heq, hinv2, hflat⟩ :=
    breakLoop_none_spec measure max_width (splitWhitespace text) [] [] [] ""
      (splitWhitespace_ne_empty text)
      ⟨rfl, rfl, Or.inl ⟨rfl, rfl⟩, by simp, fun h => absurd rfl h, by simp⟩
  obtain ⟨-, -, hemp2, hgroups2, hcurfit2, hcurel2⟩ := hinv2
  simp only [List.flatten_nil, List.nil_append] at hflat
  have hbt : break_text measure text max_width none =
      breakFinish (truncate_with_ellipsis measure) max_width none
        (g2.map joinSp) (joinSp c2) := by
    rw [break_text, heq]
  have hmemtok : ∀ w : String, w ∈ g2.flatten ∨ w ∈ c2 → w ∈ splitWhitespace text := by
    intro w h
    rw [← hflat]
    exact List.mem_append.mpr h
  have hlineprop : ∀ g, g ∈ g2 ∨ g = c2 → g ≠ [] →
      (measure (joinSp g) ≤ max_width ∨ ∃ w, g = [w]) →
      joinSp g ≠ "" ∧
        (measure (joinSp g) ≤ max_width ∨ joinSp g ∈ splitWhitespace text) := by
    intro g hg hgne hfit
    obtain ⟨a, as, rfl⟩ := List.exists_cons_of_ne_nil hgne
    have hmem : ∀ w : String, w ∈ a :: as → w ∈ splitWhitespace text := by
      intro w hw
      rcases hg with hg | rfl
      · exact hmemtok w (Or.inl (List.mem_flatten.mpr ⟨a :: as, hg, hw⟩))
      · exact hmemtok w (Or.inr hw)
    have hane : a ≠ "" := splitWhitespace_ne_empty text a (hmem a (List.mem_cons_self _ _))
    refine ⟨joinSp_cons_ne_empty a as hane, ?_⟩
    rcases hfit with hfit | ⟨w, hw⟩
    · exact Or.inl hfit
    · refine Or.inr ?_
      rw [hw, joinSp_singleton]
      exact hmem w (hw ▸ List.mem_cons_self _ _)
  rcases hemp2 with ⟨hce, hge⟩ | ⟨hce, hge⟩
  · -- trailing current line empty: the lines are exactly the committed groups
    have hfin : breakFinish (truncate_with_ellipsis measure) max_width none
        (g2.map joinSp) (joinSp c2) = some (g2.map joinSp) := by
      unfold breakFinish
      rw [if_pos (by rw [hce]; rfl)]
    refine ⟨g2.map joinSp, hbt.trans hfin,
      (break_text_rtl_eq measure text max_width none).trans (hbt.trans hfin),
      g2, ?_, rfl, fun g hg => (hgroups2 g hg).1, ?_⟩
    · rw [← hflat, hge]
      simp
    · intro line hline
      obtain ⟨g, hg, rfl⟩ := List.mem_map.mp hline
      obtain ⟨hgne, hfit⟩ := hgroups2 g hg
      exact hlineprop g (Or.inl hg) hgne hfit
  · -- trailing current line non-empty: it is appended as a final group
    have hfin : breakFinish (truncate_with_ellipsis measure) max_width none
        (g2.map joinSp) (joinSp c2) = some (g2.map joinSp ++ [joinSp c2]) := by
      unfold breakFinish
      rw [if_neg (fun h => hce ((String.isEmpty_iff _).mp h))]
    refine ⟨g2.map joinSp ++ [joinSp c2], hbt.trans hfin,
      (break_text_rtl_eq measure text max_width none).trans (hbt.trans hfin),
      g2 ++ [c2], by simpa using hflat, by simp, ?_, ?_⟩
    · intro g hg
      rcases List.mem_append.mp hg with hmem | hmem
      · exact (hgroups2 g hmem).1
      · rcases List.mem_singleton.mp hmem with rfl
        exact hge
    · intro line hline
      rcases List.mem_append.mp hline with hmem | hmem
      · obtain ⟨g, hg, rfl⟩ := List.mem_map.mp hmem
        obtain ⟨hgne, hfit⟩ := hgroups2 g hg
        exact hlineprop g (Or.inl hg) hgne hfit
      · rcases List.mem_singleton.mp hmem with rfl
        exact hlineprop c2 (Or.inr rfl) hge (hcurfit2 hge)

theorem C4_word_wrap_witness :
    ∃ lines : List String,
      break_text lenMeasure "aa bb" 3 none = some lines ∧
      break_text_rtl lenMeasure "aa bb" 3 none = some lines ∧
      ∃ groups : List (List String),
        groups.flatten = splitWhitespace "aa bb" ∧
        lines = groups.map joinSp ∧
        (∀ g ∈ groups, g ≠ []) ∧
        ∀ line ∈ lines, line ≠ "" ∧
          (lenMeasure line ≤ 3 ∨ line ∈ splitWhitespace "aa bb") :=
  C4_word_wrap lenMeasure "aa bb" 3

/-! Section: C10 — the `max_lines = Some(0)` panic -/

theorem breakLoop_all_fit (measure : String → ℚ) (max_width : ℚ) (ml : Option Nat) :
    ∀ (words curGroup : List String),
      (∀ w ∈ words, w ≠ "") →
      (∀ w ∈ curGroup, w ≠ "") →
      ((joinSp curGroup = "" ∧ curGroup = []) ∨ (joinSp curGroup ≠ "" ∧ curGroup ≠ [])) →
      (∀ k : Nat, measure (joinSp (curGroup ++ words.take k)) ≤ max_width) →
      breakLoop measure max_width ml words [] (joinSp curGroup) =
        ([], joinSp (curGroup ++ words)) := by
  intro words
  induction words with
  | nil =>
    intro curGroup _ _ _ _
    rw [List.append_nil]
    rfl
  | cons word ws ih =>
    intro curGroup hw hel hemp hfit
    have hword : word ≠ "" := hw word (List.mem_cons_self _ _)
    have hwtail : ∀ w ∈ ws, w ≠ "" := fun w h => hw w (List.mem_cons_of_mem _ h)
    simp only [breakLoop]
    rcases hemp with ⟨hce, hge⟩ | ⟨hce, hge⟩
    · subst hge
      rw [if_pos (show (joinSp ([] : List String)).isEmpty = true from rfl)]
      rw [if_pos (Or.inr (show (joinSp ([] : List String)).isEmpty = true from rfl))]
      exact ih [word] hwtail (by simp [hword])
        (Or.inr ⟨joinSp_cons_ne_empty word [] hword, by simp⟩)
        (fun k => hfit (k + 1))
    · obtain ⟨a, as, rfl⟩ := List.exists_cons_of_ne_nil hge
      have hne : ¬((joinSp (a :: as)).isEmpty = true) := fun h =>
        hce ((String.isEmpty_iff _).mp h)
      rw [if_neg hne]
      have hcond : measure (joinSp (a :: as) ++ " " ++ word) ≤ max_width := by
        have h1 : measure (joinSp ((a :: as) ++ [word])) ≤ max_width := hfit 1
        rwa [joinSp_cons_append_one] at h1
      rw [if_pos (Or.inl hcond)]
      rw [← joinSp_cons_append_one a as word]
      have ha : a ≠ "" := hel a (List.mem_cons_self _ _)
      have hrec := ih ((a :: as) ++ [word])
        hwtail
        (by
          intro w hwm
          rcases List.mem_append.mp hwm with hm | hm
          · exact hel w hm
          · rcases List.mem_singleton.mp hm with rfl
            exact hword)
        (Or.inr ⟨by
            show joinSp (a :: (as ++ [word])) ≠ ""
            exact joinSp_cons_ne_empty a _ ha, by simp⟩)
        (fun k => by
          have h := hfit (k + 1)
          rw [List.append_assoc]
          exact h)
      rw [hrec]
      rw [List.append_assoc]
      rfl

theorem breakFinish_isSome (truncate : String → ℚ → String) (max_width : ℚ)
    (ml : Option Nat) (lines : List String) (cur : String)
    (h : ml = none ∨ ∃ m, ml = some m ∧ 1 ≤ m) :
    (breakFinish truncate max_width ml lines cur).isSome = true := by
  unfold breakFinish
  by_cases hc : cur.isEmpty = true
  · rw [if_pos hc]
    rfl
  · rw [if_neg hc]
    rcases h with rfl | ⟨m, rfl, hm⟩
    · rfl
    · change (if m ≤ lines.length then
          match lines.getLast? with
          | none => none
          | some last => some (lines.dropLast ++ [truncate last max_width])
        else some (lines ++ [cur])).isSome = true
      by_cases hlen : m ≤ lines.length
      · rw [if_pos hlen]
        have hnil : lines ≠ [] := by
          intro hn
          rw [hn] at hlen
          simp only [List.length_nil, Nat.le_zero] at hlen
          omega
        rcases hlast : lines.getLast? with _ | last
        · exact absurd (List.getLast?_eq_none_iff.mp hlast) hnil
        · rfl
      · rw [if_neg hlen]
        rfl

theorem break_text_isSome (measure : String → ℚ) (text : String) (max_width : ℚ)
    (ml : Option Nat) (h : ml = none ∨ ∃ m, ml = some m ∧ 1 ≤ m) :
    (break_text measure text max_width ml).isSome = true := by
  simp only [break_text]
  rcases breakLoop measure max_width ml (splitWhitespace text) [] "" with ⟨l, c⟩
  exact breakFinish_isSome _ _ _ l c h

theorem break_text_some0_none (measure : String → ℚ) (text : String) (max_width : ℚ)
    (htok : splitWhitespace text ≠ [])
    (hfit : ∀ k, measure (joinSp ((splitWhitespace text).take k)) ≤ max_width) :
    break_text measure text max_width (some 0) = none := by
  have hloop : breakLoop measure max_width (some 0) (splitWhitespace text) [] "" =
      ([], joinSp (splitWhitespace text)) := by
    have := breakLoop_all_fit measure max_width (some 0) (splitWhitespace text) []
      (splitWhitespace_ne_empty text) (by simp) (Or.inl ⟨rfl, rfl⟩)
      (fun k => by simpa using hfit k)
    simpa using this
  obtain ⟨a, as, hcons⟩ := List.exists_cons_of_ne_nil htok
  have hcur : joinSp (splitWhitespace text) ≠ "" := by
    rw [hcons]
    exact joinSp_cons_ne_empty a as
      (splitWhitespace_ne_empty text a (hcons ▸ List.mem_cons_self _ _))
  rw [break_text, hloop]
  show breakFinish (truncate_with_ellipsis measure) max_width (some 0) []
    (joinSp (splitWhitespace text)) = none
  unfold breakFinish
  rw [if_neg (fun h => hcur ((String.isEmpty_iff _).mp h))]
  show (if 0 ≤ ([] : List String).length then
      match ([] : List String).getLast? with
      | none => none
      | some last => some (([] : List String).dropLast ++
          [truncate_with_ellipsis measure last max_width])
    else some (([] : List String) ++ [joinSp (splitWhitespace text)])) = none
  rw [if_pos (by simp)]
  rfl

/-- C10 counterexample: the claim predicts the `lines.last_mut().unwrap()`
panic for *any* non-empty input text that fits, under `max_lines = Some(0)`;
but a whitespace-only input such as `" "` is non-empty, fits every width,
commits no line — and `break_text` simply returns an empty line list
(its token list is empty, so `current_line` stays empty and the epilogue
returns `Ok`-style `some []` without touching `lines.last_mut()`). -/
theorem C10_counterexample :
    break_text (fun _ => (0 : ℚ)) " " 100 (some 0) = some [] ∧
    break_text_rtl (fun _ => (0 : ℚ)) " " 100 (some 0) = some [] ∧
    (" " : String) ≠ "" ∧
    (fun _ => (0 : ℚ)) " " ≤ 100 := by
  refine ⟨rfl, rfl, by decide, by norm_num⟩

/-- C10 (amended): the wrap operation is total when `max_lines` is absent or
at least 1.  For `max_lines = Some(0)` and any input text with at least one
whitespace-delimited token all of whose space-joined token prefixes fit
`max_width` (so no line is ever committed in the loop), `break_text` and
`break_text_rtl` reach `lines.last_mut().unwrap()` on an empty line list and
panic (modelled as `none`) instead of returning a result; and the expression
`max as usize - 1` underflows for `max = 0`, wrapping to `2^64 - 1` under
release-mode `usize` semantics (so the in-loop line cap is never triggered). -/
theorem C10_wrap_totality :
    (∀ (measure : String → ℚ) (text : String) (max_width : ℚ) (ml : Option Nat),
       ml = none ∨ (∃ m, ml = some m ∧ 1 ≤ m) →
       (break_text measure text max_width ml).isSome = true ∧
       (break_text_rtl measure text max_width ml).isSome = true) ∧
    (∀ (measure : String → ℚ) (text : String) (max_width : ℚ),
       splitWhitespace text ≠ [] →
       (∀ k, measure (joinSp ((splitWhitespace text).take k)) ≤ max_width) →
       break_text measure text max_width (some 0) = none ∧
       break_text_rtl measure text max_width (some 0) = none) ∧
    usizeSub1 0 = 2 ^ 64 - 1 := by
  refine ⟨?_, ?_, ?_⟩
  · intro measure text max_width ml h
    refine ⟨break_text_isSome measure text max_width ml h, ?_⟩
    rw [break_text_rtl_eq]
    exact break_text_isSome measure text max_width ml h
  · intro measure text max_width htok hfit
    refine ⟨break_text_some0_none measure text max_width htok hfit, ?_⟩
    rw [break_text_rtl_eq]
    exact break_text_some0_none measure text max_width htok hfit
  · rw [usizeSub1]
    norm_num

theorem C10_wrap_totality_witness :
    splitWhitespace "a b" ≠ [] ∧
    break_text (fun _ => (0 : ℚ)) "a b" 5 (some 0) = none :=
  ⟨by decide,
   (C10_wrap_totality.2.1 (fun _ => (0 : ℚ)) "a b" 5 (by decide)
     (fun _ => by norm_num)).1⟩
